import Mathlib

/-!
Verification development for the lepton schema/binary-codec library.

The TypeScript source operates on dynamically-typed JavaScript values and
represents wire payloads as lowercase hexadecimal strings (two hex characters
per byte).  The embedding models:

* JavaScript values by the inductive `Value` (JS numbers are restricted to
  integers, which covers every value the claims exercise; IEEE-754
  `Float32`/`Float64` schema nodes are outside the embedding);
* the hex-string payload as `List Int`, one entry per two-hex-character cell
  (a cell is the `parseInt(bytes.slice(i, i+2), 16)` reading the source
  performs; ordinarily a cell is a byte in `[0, 255]`, but the enum encoder
  can emit the two-character text `-1`, which reads back as the cell `-1`);
* thrown exceptions by `Except Err`, where `Err.lep` records whether the
  exception is a `LeptonError` (only those get path segments prepended by
  the `catch` blocks in the source).

JavaScript 32-bit integer operator semantics (`<<`, `>>`, `&`, `|` convert
their operands with ToInt32/ToUint32 and mask shift counts to 5 bits) are
modelled explicitly by `toInt32`, `toUint32`, `jsShl`, `jsShr`, `jsAnd`,
`jsOr`, because the source relies on them (`LeptonBits` in particular).
-/

namespace Lepton

/-- ToUint32: reduce an integer modulo 2^32 to `[0, 2^32)`. -/
def toUint32 (n : Int) : Nat :=
  (n.emod 4294967296).toNat

/-- ToInt32: reduce an integer modulo 2^32 to `[-2^31, 2^31)`. -/
def toInt32 (n : Int) : Int :=
  let u := toUint32 n
  if u < 2147483648 then (u : Int) else (u : Int) - 4294967296

/-- JavaScript `a << b`: ToInt32 both operands, mask the count to 5 bits,
shift, and wrap the result to int32. -/
def jsShl (a : Int) (b : Nat) : Int :=
  toInt32 (toInt32 a * (2 : Int) ^ (b % 32))

/-- JavaScript `a >> b` (sign-propagating right shift): arithmetic shift of
the int32 value, i.e. floor division by 2^(b mod 32). -/
def jsShr (a : Int) (b : Nat) : Int :=
  Int.fdiv (toInt32 a) ((2 : Int) ^ (b % 32))

/-- JavaScript `a & b` on numbers (int32 bitwise AND). -/
def jsAnd (a b : Int) : Int :=
  toInt32 ((Nat.land (toUint32 a) (toUint32 b) : Nat) : Int)

/-- JavaScript `a | b` on numbers (int32 bitwise OR). -/
def jsOr (a b : Int) : Int :=
  toInt32 ((Nat.lor (toUint32 a) (toUint32 b) : Nat) : Int)

mutual
/-- A dynamically-typed JavaScript value, as far as the lepton codecs
inspect one.  `vNum` carries an integer: every numeric value the claims
exercise is integral (the source's `Number.isInteger` test is therefore
always true on `vNum`). `vBigInt` is a separate constructor because
`typeof` distinguishes `bigint` from `number`. -/
inductive Value where
  | vNum (n : Int)
  | vBigInt (n : Int)
  | vStr (s : String)
  | vBool (b : Bool)
  | vUndef
  | vNull
  | vArr (elems : ValueList)
  | vObj (fields : ValueFields)
/-- A JavaScript array of values. -/
inductive ValueList where
  | nil
  | cons (v : Value) (rest : ValueList)
/-- The own enumerable properties of a JavaScript object, in insertion
order (JS objects preserve string-key insertion order). -/
inductive ValueFields where
  | nil
  | cons (k : String) (v : Value) (rest : ValueFields)
end

/-- JavaScript `typeof`. `typeof null`, arrays and plain objects are all
`"object"`. -/
def jsTypeof : Value → String
  | .vNum _ => "number"
  | .vBigInt _ => "bigint"
  | .vStr _ => "string"
  | .vBool _ => "boolean"
  | .vUndef => "undefined"
  | .vNull => "object"
  | .vArr _ => "object"
  | .vObj _ => "object"

mutual
/-- JavaScript ToString coercion (`String(v)` and template-literal
interpolation).  Arrays stringify as their elements joined by commas with
`null`/`undefined` elements as empty strings; plain objects stringify as
`[object Object]`. -/
def jsToString : Value → String
  | .vNum n => toString n
  | .vBigInt n => toString n
  | .vStr s => s
  | .vBool b => if b then "true" else "false"
  | .vUndef => "undefined"
  | .vNull => "null"
  | .vArr xs => arrJoin xs
  | .vObj _ => "[object Object]"
/-- Array.prototype.toString: comma-joined elements, `null`/`undefined`
rendered as the empty string. -/
def arrJoin : ValueList → String
  | .nil => ""
  | .cons v rest =>
    (match v with
     | .vUndef => ""
     | .vNull => ""
     | _ => jsToString v) ++
    (match rest with
     | .nil => ""
     | _ => "," ++ arrJoin rest)
end

/-- First value stored under a key (JS objects cannot hold duplicate keys,
so first-occurrence lookup is exact). -/
def vfLookup : ValueFields → String → Option Value
  | .nil, _ => none
  | .cons k v rest, key => if k = key then some v else vfLookup rest key

/-- Object.keys: the own keys in order. -/
def vfKeys : ValueFields → List String
  | .nil => []
  | .cons k _ rest => k :: vfKeys rest

/-- Length of a JavaScript array. -/
def vlLength : ValueList → Nat
  | .nil => 0
  | .cons _ rest => vlLength rest + 1

/-- View of an array as an object whose keys are the stringified indices
(this is how `Object.keys`/`key in value`/`value[key]` see an array). -/
def arrToFields : ValueList → Nat → ValueFields
  | .nil, _ => .nil
  | .cons v rest, i => .cons (toString i) v (arrToFields rest (i + 1))

/-- A thrown exception.  `lep = true` for `LeptonError` (message plus path);
`lep = false` for native errors such as `TypeError`, which the source's
`catch` blocks re-throw without touching the path. -/
structure Err where
  message : String
  path : List String
  lep : Bool
deriving DecidableEq, Repr

/-- Result of an operation that may throw. -/
abbrev Res (α : Type) := Except Err α

/-- Wire payload: one entry per two-hex-character cell of the source's hex
string. -/
abbrev Bytes := List Int

/-- The path-prepending performed by the source's catch blocks:
`if (err instanceof LeptonError) err.path = [seg, ...err.path]`. -/
def prependPath (seg : String) (e : Err) : Err :=
  if e.lep then { e with path := seg :: e.path } else e

/-! ### VarInt codec (`src/utils.ts`) -/

/-- Loop body of `encodeVarInt` for a positive value: emit `value & 0x7f`,
shift right by 7, set the continuation bit when more remains.  The source's
`while (value > 0n)` loop is expressed with a structural fuel argument; fuel
`n` is always sufficient for value `n` because the value at least halves
each round (see `encodeVarIntAux_fuel`). -/
def encodeVarIntAux : Nat → Nat → Bytes
  | 0, _ => []
  | fuel + 1, n =>
    if n = 0 then []
    else
      let b := n % 128
      let rest := n / 128
      (if rest > 0 then (b : Int) + 128 else (b : Int)) :: encodeVarIntAux fuel rest

/-- `encodeVarInt` from `src/utils.ts`.  Zero encodes as the single byte
`00`.  For a negative bigint the `while (value > 0n)` loop body never runs,
so the function returns the empty string. -/
def encodeVarInt (value : Int) : Bytes :=
  if value = 0 then [0]
  else if value < 0 then []
  else encodeVarIntAux value.toNat value.toNat

/-- Byte-collection loop of `decodeVarInt`: consume cells until one has its
high bit clear (inclusive) or the input ends; returns (consumed, rest). -/
def varIntSplit : Bytes → Bytes × Bytes
  | [] => ([], [])
  | b :: rest =>
    if jsAnd b 128 = 0 then ([b], rest)
    else
      let (c, r) := varIntSplit rest
      (b :: c, r)

/-- Value-assembly loop of `decodeVarInt`:
`value |= BigInt(byte & 0x7f) << shift` with `shift` advancing by 7; since
the 7-bit groups are disjoint and non-negative, the bigint OR is addition. -/
def varIntValue : Bytes → Int
  | [] => 0
  | b :: rest => jsAnd b 127 + 128 * varIntValue rest

/-- `decodeVarInt` from `src/utils.ts`: split off the consumed prefix, then
assemble the value least-significant group first.  End of input acts as an
implicit terminator: the function never throws. -/
def decodeVarInt (bs : Bytes) : Int × Bytes :=
  let p := varIntSplit bs
  (varIntValue p.1, p.2)

/-! ### UTF-8 (TextEncoder / TextDecoder) -/

/-- UTF-8 encoding of one code point (TextEncoder). -/
def utf8EncodeChar (c : Char) : Bytes :=
  let n := c.toNat
  if n < 128 then [(n : Int)]
  else if n < 2048 then
    [(192 + n / 64 : Int), (128 + n % 64 : Int)]
  else if n < 65536 then
    [(224 + n / 4096 : Int), (128 + n / 64 % 64 : Int), (128 + n % 64 : Int)]
  else
    [(240 + n / 262144 : Int), (128 + n / 4096 % 64 : Int),
     (128 + n / 64 % 64 : Int), (128 + n % 64 : Int)]

/-- UTF-8 bytes of a string (TextEncoder.encode). -/
def utf8Bytes (s : String) : Bytes :=
  (s.data.map utf8EncodeChar).flatten

/-- Is a cell a UTF-8 continuation byte? -/
def isUtf8Cont (b : Int) : Bool :=
  128 ≤ b && b < 192

/-- UTF-8 decoding of a cell list (TextDecoder.decode).  Well-formed
sequences decode exactly; malformed bytes decode to U+FFFD replacement
characters (`Char.ofNat` maps the unrepresentable surrogate range to NUL,
a corner no decodable payload reaches). -/
def utf8Decode : Bytes → List Char
  | [] => []
  | b :: rest =>
    if b < 0 then Char.ofNat 65533 :: utf8Decode rest
    else if b < 128 then Char.ofNat b.toNat :: utf8Decode rest
    else if b < 194 then Char.ofNat 65533 :: utf8Decode rest
    else if b < 224 then
      match rest with
      | c :: r =>
        if isUtf8Cont c then
          Char.ofNat ((b.toNat - 192) * 64 + (c.toNat - 128)) :: utf8Decode r
        else Char.ofNat 65533 :: utf8Decode (c :: r)
      | [] => [Char.ofNat 65533]
    else if b < 240 then
      match rest with
      | c1 :: c2 :: r =>
        if isUtf8Cont c1 && isUtf8Cont c2 then
          Char.ofNat ((b.toNat - 224) * 4096 + (c1.toNat - 128) * 64 + (c2.toNat - 128))
            :: utf8Decode r
        else Char.ofNat 65533 :: utf8Decode (c1 :: c2 :: r)
      | _ => [Char.ofNat 65533]
    else if b < 245 then
      match rest with
      | c1 :: c2 :: c3 :: r =>
        if isUtf8Cont c1 && isUtf8Cont c2 && isUtf8Cont c3 then
          Char.ofNat ((b.toNat - 240) * 262144 + (c1.toNat - 128) * 4096 +
            (c2.toNat - 128) * 64 + (c3.toNat - 128)) :: utf8Decode r
        else Char.ofNat 65533 :: utf8Decode (c1 :: c2 :: c3 :: r)
      | _ => [Char.ofNat 65533]
    else Char.ofNat 65533 :: utf8Decode rest
termination_by bs => bs.length
decreasing_by all_goals { simp only [List.length_cons]; omega }

/-! ### Fixed-width integers (`src/lib/primitive/integer.ts`) -/

/-- Big-endian byte expansion produced by
`value.toString(16).padStart(width * 2, "0")` for an in-range value. -/
def natToBE (w : Nat) (n : Nat) : Bytes :=
  (List.range w).map (fun i => ((n / 256 ^ (w - 1 - i)) % 256 : Int))

/-- Big-endian reading performed by `parseInt(bytes.slice(0, width*2), 16)`
on byte cells. -/
def beValue (cells : Bytes) : Int :=
  cells.foldl (fun acc b => acc * 256 + b) 0

/-- Minimum of `LeptonSignedInt(width)`: `-(2 ** (8w - 1))` (exact for the
byte widths 1, 2, 4 the factories construct). -/
def signedMin (w : Nat) : Int := -((2 : Int) ^ (8 * w - 1))

/-- Maximum of `LeptonSignedInt(width)`: `2 ** (8w - 1) - 1`. -/
def signedMax (w : Nat) : Int := (2 : Int) ^ (8 * w - 1) - 1

/-- Range-violation message of `LeptonSignedInt`. -/
def signedRangeMsg (w : Nat) : String :=
  "Value out of range for signed int" ++ toString (8 * w) ++ ": must be between "
    ++ toString (signedMin w) ++ " and " ++ toString (signedMax w)

/-- Type-mismatch message shared by the integer codecs:
`Expected integer, got ${typeof input}`. -/
def expectedIntMsg (v : Value) : String :=
  "Expected integer, got " ++ jsTypeof v

/-- `LeptonSignedInt.parse`: integer check, then range check.  (`vNum`
always satisfies `Number.isInteger` in this embedding.) -/
def signedParse (w : Nat) (v : Value) : Res Value :=
  match v with
  | .vNum n =>
    if n < signedMin w ∨ n > signedMax w then .error ⟨signedRangeMsg w, [], true⟩
    else .ok (.vNum n)
  | _ => .error ⟨expectedIntMsg v, [], true⟩

/-- `LeptonSignedInt.encode`: re-checks type and range, converts negatives
to two's complement by adding `2 ** bits`, then writes big-endian hex. -/
def signedEncode (w : Nat) (v : Value) : Res Bytes :=
  match v with
  | .vNum n =>
    if n < signedMin w ∨ n > signedMax w then .error ⟨signedRangeMsg w, [], true⟩
    else
      let adjusted := if n < 0 then (2 : Int) ^ (8 * w) + n else n
      .ok (natToBE w adjusted.toNat)
  | _ => .error ⟨expectedIntMsg v, [], true⟩

/-- `LeptonSignedInt._rawDecode`: length check, big-endian read, sign-bit
test via the int32 op `value & (1 << (bits - 1))`, two's-complement undo. -/
def signedRawDecode (w : Nat) (bs : Bytes) : Res (Value × Bytes) :=
  if bs.length < w then
    .error ⟨"Not enough bytes to decode int" ++ toString (8 * w), [], true⟩
  else
    let raw := beValue (bs.take w)
    let isNeg := jsAnd raw (jsShl 1 (8 * w - 1)) ≠ 0
    .ok (.vNum (if isNeg then raw - (2 : Int) ^ (8 * w) else raw), bs.drop w)

/-- Maximum of `LeptonUnsignedInt(width)`: `2 ** (8w) - 1`. -/
def uintMax (w : Nat) : Int := (2 : Int) ^ (8 * w) - 1

/-- Range-violation message of `LeptonUnsignedInt`. -/
def uintRangeMsg (w : Nat) : String :=
  "Value out of range for unsigned uint" ++ toString (8 * w)
    ++ ": must be between 0 and " ++ toString (uintMax w)

/-- `LeptonUnsignedInt.parse`. -/
def uintParse (w : Nat) (v : Value) : Res Value :=
  match v with
  | .vNum n =>
    if n < 0 ∨ n > uintMax w then .error ⟨uintRangeMsg w, [], true⟩
    else .ok (.vNum n)
  | _ => .error ⟨expectedIntMsg v, [], true⟩

/-- `LeptonUnsignedInt.encode`: re-checks type and range before writing
big-endian hex. -/
def uintEncode (w : Nat) (v : Value) : Res Bytes :=
  match v with
  | .vNum n =>
    if n < 0 ∨ n > uintMax w then .error ⟨uintRangeMsg w, [], true⟩
    else .ok (natToBE w n.toNat)
  | _ => .error ⟨expectedIntMsg v, [], true⟩

/-- `LeptonUnsignedInt._rawDecode`. -/
def uintRawDecode (w : Nat) (bs : Bytes) : Res (Value × Bytes) :=
  if bs.length < w then
    .error ⟨"Not enough bytes to decode uint" ++ toString (8 * w), [], true⟩
  else .ok (.vNum (beValue (bs.take w)), bs.drop w)

/-! ### Bit-width integers (`LeptonBits`) -/

/-- `this.maxValue = (1 << bitWidth) - 1` with JavaScript shift semantics:
the shift count is masked to 5 bits and the result wraps to int32, so the
value is `2^w - 1` only for `w ≤ 30`; it is `-2^31 - 1` at `w = 31` and `0`
at `w = 32`. -/
def bitsMax (w : Nat) : Int := jsShl 1 w - 1

/-- `LeptonBits` constructor: throws unless `0 < bitWidth ≤ 32`. -/
def mkBits (w : Int) : Res Int :=
  if w ≤ 0 ∨ w > 32 then
    .error ⟨"Bit width must be between 1 and 32, got " ++ toString w, [], true⟩
  else .ok w

/-- Range-violation message of `LeptonBits`. -/
def bitsRangeMsg (w : Nat) : String :=
  "Value out of range for " ++ toString w ++ "-bit integer: must be between 0 and "
    ++ toString (bitsMax w)

/-- `LeptonBits.parse`. -/
def bitsParse (w : Nat) (v : Value) : Res Value :=
  match v with
  | .vNum n =>
    if n < 0 ∨ n > bitsMax w then .error ⟨bitsRangeMsg w, [], true⟩
    else .ok (.vNum n)
  | _ => .error ⟨expectedIntMsg v, [], true⟩

/-- `LeptonBits.encode`: re-checks type and range, then writes
`Math.ceil(bitWidth / 8)` bytes, each `(value >> shift) & 0xff` (the
`Math.max(0, ...)` on the shift is subsumed by truncating Nat
subtraction). -/
def bitsEncode (w : Nat) (v : Value) : Res Bytes :=
  match v with
  | .vNum n =>
    if n < 0 ∨ n > bitsMax w then .error ⟨bitsRangeMsg w, [], true⟩
    else
      let need := (w + 7) / 8
      .ok ((List.range need).map (fun i => jsAnd (jsShr n ((need - i - 1) * 8)) 255))
  | _ => .error ⟨expectedIntMsg v, [], true⟩

/-- `LeptonBits._rawDecode`: length check, accumulate with the int32 ops
`(value << 8) | byte`, then mask with `(1 << bitWidth) - 1` when the width
is not a whole number of bytes. -/
def bitsRawDecode (w : Nat) (bs : Bytes) : Res (Value × Bytes) :=
  let need := (w + 7) / 8
  if bs.length < need then
    .error ⟨"Not enough bytes to decode " ++ toString w ++ "-bit integer", [], true⟩
  else
    let raw := (bs.take need).foldl (fun acc b => jsOr (jsShl acc 8) b) 0
    .ok (.vNum (if w % 8 ≠ 0 then jsAnd raw (jsShl 1 w - 1) else raw), bs.drop need)

/-! ### Boolean (`LeptonBoolean`) -/

/-- Type-mismatch message of `LeptonBoolean`. -/
def expectedBoolMsg (v : Value) : String :=
  "Expected boolean, got " ++ jsTypeof v

/-- `LeptonBoolean.parse`. -/
def boolParse (v : Value) : Res Value :=
  match v with
  | .vBool b => .ok (.vBool b)
  | _ => .error ⟨expectedBoolMsg v, [], true⟩

/-- `LeptonBoolean.encode`: re-checks the type, then writes `+value` as one
byte. -/
def boolEncode (v : Value) : Res Bytes :=
  match v with
  | .vBool b => .ok [if b then 1 else 0]
  | _ => .error ⟨expectedBoolMsg v, [], true⟩

/-- `LeptonBoolean._rawDecode`: one byte, `!!value`. -/
def boolRawDecode (bs : Bytes) : Res (Value × Bytes) :=
  match bs with
  | [] => .error ⟨"Not enough bytes to decode boolean", [], true⟩
  | b :: rest => .ok (.vBool (b != 0), rest)

/-! ### String (`src/lib/primitive/string.ts`) -/

/-- `LeptonString.parse`: type check only. -/
def strParse (v : Value) : Res Value :=
  match v with
  | .vStr s => .ok (.vStr s)
  | _ => .error ⟨"Expected string, got " ++ jsTypeof v, [], true⟩

/-- Argument coercion of `TextEncoder.encode`: its IDL parameter defaults
to the empty string for `undefined` and applies ToString otherwise. -/
def textEncodeInput (v : Value) : String :=
  match v with
  | .vUndef => ""
  | _ => jsToString v

/-- `LeptonString.encode`: no type re-check — the value is coerced to a
string by `TextEncoder`, then a VarInt byte-length prefix is followed by
the UTF-8 bytes.  Encoding a non-string therefore produces bytes instead
of failing. -/
def strEncode (v : Value) : Res Bytes :=
  let bs := utf8Bytes (textEncodeInput v)
  .ok (encodeVarInt (bs.length : Int) ++ bs)

/-- `LeptonString._rawDecode`: VarInt length prefix, length check, UTF-8
decode of that many bytes. -/
def strRawDecode (bs : Bytes) : Res (Value × Bytes) :=
  let p := decodeVarInt bs
  let n := p.1.toNat
  if p.2.length < n then
    .error ⟨"Not enough bytes to decode string of length " ++ toString n, [], true⟩
  else .ok (.vStr (String.mk (utf8Decode (p.2.take n))), p.2.drop n)

/-! ### BigInt (`LeptonBigInt`) -/

/-- Type-mismatch message of `LeptonBigInt`. -/
def expectedBigIntMsg (v : Value) : String :=
  "Expected bigint, got " ++ jsTypeof v

/-- `LeptonBigInt.parse`: type check only — any bigint passes, negative
ones included. -/
def bigParse (v : Value) : Res Value :=
  match v with
  | .vBigInt n => .ok (.vBigInt n)
  | _ => .error ⟨expectedBigIntMsg v, [], true⟩

/-- `LeptonBigInt.encode`: re-checks the type, then `encodeVarInt` (which
returns the empty string for a negative value). -/
def bigEncode (v : Value) : Res Bytes :=
  match v with
  | .vBigInt n => .ok (encodeVarInt n)
  | _ => .error ⟨expectedBigIntMsg v, [], true⟩

/-- `LeptonBigInt._rawDecode` is `decodeVarInt`; it never throws. -/
def bigRawDecode (bs : Bytes) : Res (Value × Bytes) :=
  let p := decodeVarInt bs
  .ok (.vBigInt p.1, p.2)

/-! ### Enum (`LeptonEnum`, second section of `src/lib/primitive/double.ts`) -/

/-- Array.prototype.join with `", "`. -/
def joinComma (l : List String) : String := String.intercalate ", " l

/-- `LeptonEnum` constructor checks on a string list: non-empty and
duplicate-free (`new Set(values).size !== values.length`).  The null,
is-array and all-strings checks of the source are enforced by the Lean
types. -/
def mkEnum (values : List String) : Res (List String) :=
  if values.length = 0 then .error ⟨"Enum must have at least one value", [], true⟩
  else if values.dedup.length ≠ values.length then
    .error ⟨"Enum values must be unique", [], true⟩
  else .ok values

/-- `LeptonEnum.parse`: membership of `String(input)` in the value set;
note the coercion — the returned value is the original input. -/
def enumParse (values : List String) (v : Value) : Res Value :=
  if values.contains (jsToString v) then .ok v
  else
    .error ⟨"Invalid enum value. Expected one of: " ++ joinComma values
      ++ ", got: " ++ jsToString v, [], true⟩

/-- `LeptonEnum.encode`: validates via `parse`, then writes
`values.indexOf(value)` as one cell.  `indexOf` uses strict equality, so a
non-string input (which can pass `parse` through the `String(input)`
coercion) yields index `-1`, emitted by the source as the two-character
hex text `-1` — the cell `-1` here. -/
def enumEncode (values : List String) (v : Value) : Res Bytes :=
  match enumParse values v with
  | .error e => .error e
  | .ok _ =>
    match v with
    | .vStr s =>
      match values.findIdx? (fun x => x == s) with
      | some i => .ok [(i : Int)]
      | none => .ok [-1]
    | _ => .ok [-1]

/-- `LeptonEnum._rawDecode`: one index cell; `index >= values.length`
throws, otherwise `values[index]` (JavaScript indexing yields `undefined`
for a negative cell, a corner only the `-1` text cell can reach). -/
def enumRawDecode (values : List String) (bs : Bytes) : Res (Value × Bytes) :=
  match bs with
  | [] => .error ⟨"Not enough bytes to decode enum value", [], true⟩
  | b :: rest =>
    if b ≥ (values.length : Int) then
      .error ⟨"Invalid enum index: " ++ toString b, [], true⟩
    else
      match (if 0 ≤ b then values[b.toNat]? else none) with
      | some s => .ok (.vStr s, rest)
      | none => .ok (.vUndef, rest)

/-- `LeptonEnum.exclude`: filter out the given values, throw if nothing
remains, then construct a new enum (whose constructor re-checks). -/
def enumExclude (values toExcl : List String) : Res (List String) :=
  let filtered := values.filter (fun x => !(toExcl.contains x))
  if filtered.length = 0 then
    .error ⟨"Cannot exclude all values from an enum", [], true⟩
  else mkEnum filtered

/-! ### Schema nodes and the shared contract (`src/lib/types.ts`)

The schema universe covers the nodes the claims quantify over.  The
IEEE-754 `Float32`/`Float64` nodes and the native-enum variant are not
embedded (floating point is outside the shallow embedding). -/

mutual
/-- A lepton schema node. -/
inductive Schema where
  | signedInt (width : Nat)
  | unsignedInt (width : Nat)
  | bits (bitWidth : Nat)
  | boolean
  | str
  | bigV
  | enum (values : List String)
  | opt (inner : Schema)
  | nullable (inner : Schema)
  | arr (inner : Schema)
  | obj (shape : Shape) (isStrict : Bool)
/-- An ordered object shape: field name to schema node, in declaration
order. -/
inductive Shape where
  | nil
  | cons (name : String) (s : Schema) (rest : Shape)
end

/-- Does a shape declare a key (`key in this.shape`)? -/
def shapeHasKey : Shape → String → Bool
  | .nil, _ => false
  | .cons k _ rest, key => k == key || shapeHasKey rest key

/-- `schema instanceof LeptonOptional`. -/
def isOptSchema : Schema → Bool
  | .opt _ => true
  | _ => false

/-- Element loop of `LeptonArray.parse`: validate each element, prepending
the stringified index to the path of a `LeptonError` thrown below. -/
def parseLoop (f : Value → Res Value) : ValueList → Nat → Res ValueList
  | .nil, _ => .ok .nil
  | .cons x rest, i =>
    match f x with
    | .error e => .error (prependPath (toString i) e)
    | .ok y => (parseLoop f rest (i + 1)).map (ValueList.cons y)

/-- Element loop of `LeptonArray.encode`: concatenate element encodings
(no catch block here — element errors propagate untouched). -/
def encodeLoop (f : Value → Res Bytes) : ValueList → Res Bytes
  | .nil => .ok []
  | .cons x rest =>
    match f x with
    | .error e => .error e
    | .ok bs => (encodeLoop f rest).map (fun tl => bs ++ tl)

/-- Element loop of `LeptonArray._rawDecode`: decode exactly `count`
elements, threading the remaining bytes, prepending the stringified index
to the path of a `LeptonError` thrown below. -/
def decodeLoop (f : Bytes → Res (Value × Bytes)) :
    Nat → Bytes → Nat → Res (ValueList × Bytes)
  | 0, bs, _ => .ok (.nil, bs)
  | count + 1, bs, i =>
    match f bs with
    | .error e => .error (prependPath (toString i) e)
    | .ok (v, rest) =>
      (decodeLoop f count rest (i + 1)).map (fun q => (ValueList.cons v q.1, q.2))

/-- View a value as the object `LeptonObject.parse` walks: objects give
their own fields, arrays their indexed elements; every non-object (and
`null`, whose `typeof` is still `"object"`) is rejected by the caller. -/
def jsObjFields : Value → Option ValueFields
  | .vObj fs => some fs
  | .vArr xs => some (arrToFields xs 0)
  | _ => none

/-- JavaScript member access `value[key]` as `LeptonObject.encode`
performs it: absent keys and primitive receivers give `undefined`; `null`
and `undefined` receivers throw a native `TypeError` (not a
`LeptonError`).  String receivers and prototype properties are beyond any
input the claims exercise and read as `undefined` here. -/
def jsGet (v : Value) (key : String) : Res Value :=
  match v with
  | .vObj fs => .ok ((vfLookup fs key).getD .vUndef)
  | .vArr xs => .ok ((vfLookup (arrToFields xs 0) key).getD .vUndef)
  | .vNull => .error ⟨"Cannot read properties of null", [], false⟩
  | .vUndef => .error ⟨"Cannot read properties of undefined", [], false⟩
  | _ => .ok .vUndef

mutual
/-- `validate` of the schema contract: `parse` of each node.  Composite
nodes recurse into children and prepend the failing child's path segment. -/
def parse : Schema → Value → Res Value
  | .signedInt w => signedParse w
  | .unsignedInt w => uintParse w
  | .bits w => bitsParse w
  | .boolean => boolParse
  | .str => strParse
  | .bigV => bigParse
  | .enum vs => enumParse vs
  | .opt s => fun v =>
    match v with
    | .vUndef => .ok .vUndef
    | _ => parse s v
  | .nullable s => fun v =>
    match v with
    | .vNull => .ok .vNull
    | _ => parse s v
  | .arr s => fun v =>
    match v with
    | .vArr xs => (parseLoop (parse s) xs 0).map Value.vArr
    | _ => .error ⟨"Expected array, got " ++ jsTypeof v, [], true⟩
  | .obj shape strict => fun v =>
    match jsObjFields v with
    | none => .error ⟨"Expected object, got " ++ jsTypeof v, [], true⟩
    | some fs =>
      let extra := (vfKeys fs).filter (fun k => !(shapeHasKey shape k))
      if strict && !extra.isEmpty then
        .error ⟨"Unrecognized key(s) in object: " ++ joinComma extra, [], true⟩
      else (parseShape shape fs).map Value.vObj
/-- Field loop of `LeptonObject.parse`: in declaration order, a missing
non-Optional field throws `Missing required property`, a present field is
validated with its key prepended to any `LeptonError` path, and only
declared fields reach the result. -/
def parseShape : Shape → ValueFields → Res ValueFields
  | .nil, _ => .ok .nil
  | .cons k sch rest, input =>
    match vfLookup input k with
    | none =>
      if isOptSchema sch then parseShape rest input
      else .error ⟨"Missing required property: " ++ k, [], true⟩
    | some fv =>
      match parse sch fv with
      | .error e => .error (prependPath k e)
      | .ok pv => (parseShape rest input).map (ValueFields.cons k pv)
end

mutual
/-- `encode` of the schema contract. -/
def encode : Schema → Value → Res Bytes
  | .signedInt w => signedEncode w
  | .unsignedInt w => uintEncode w
  | .bits w => bitsEncode w
  | .boolean => boolEncode
  | .str => strEncode
  | .bigV => bigEncode
  | .enum vs => enumEncode vs
  | .opt s => fun v =>
    match v with
    | .vUndef => .ok [0]
    | _ => (encode s v).map (fun bs => 1 :: bs)
  | .nullable s => fun v =>
    match v with
    | .vNull => .ok [1]
    | _ => (encode s v).map (fun bs => 0 :: bs)
  | .arr s => fun v =>
    match v with
    | .vArr xs =>
      (encodeLoop (encode s) xs).map (fun bs => encodeVarInt (vlLength xs : Int) ++ bs)
    | _ =>
      -- `BigInt(value.length)` with `value.length === undefined` throws a
      -- native TypeError.  (A string value, whose `.length` is a number,
      -- is an untyped-input corner no claim exercises.)
      .error ⟨"Cannot convert undefined to a BigInt", [], false⟩
  | .obj shape _ => fun v => encodeShape shape v
/-- Field loop of `LeptonObject.encode`: read `value[key]` for each
declared field (even an absent one — the field schema decides what absence
encodes to) and concatenate. -/
def encodeShape : Shape → Value → Res Bytes
  | .nil, _ => .ok []
  | .cons k sch rest, v =>
    match jsGet v k with
    | .error e => .error e
    | .ok fv =>
      match encode sch fv with
      | .error e => .error e
      | .ok bs => (encodeShape rest v).map (fun tl => bs ++ tl)
end

mutual
/-- `decodeRaw` of the schema contract: `_rawDecode` of each node —
consume a prefix, return the raw value and the unconsumed remainder. -/
def rawDecode : Schema → Bytes → Res (Value × Bytes)
  | .signedInt w => signedRawDecode w
  | .unsignedInt w => uintRawDecode w
  | .bits w => bitsRawDecode w
  | .boolean => boolRawDecode
  | .str => strRawDecode
  | .bigV => bigRawDecode
  | .enum vs => enumRawDecode vs
  | .opt s => fun bs =>
    match bs with
    | [] => .error ⟨"Not enough bytes to decode optional presence flag", [], true⟩
    | b :: rest => if b = 0 then .ok (.vUndef, rest) else rawDecode s rest
  | .nullable s => fun bs =>
    match bs with
    | [] => .error ⟨"Not enough bytes to decode nullable flag", [], true⟩
    | b :: rest => if b = 1 then .ok (.vNull, rest) else rawDecode s rest
  | .arr s => fun bs =>
    let p := decodeVarInt bs
    (decodeLoop (rawDecode s) p.1.toNat p.2 0).map (fun q => (Value.vArr q.1, q.2))
  | .obj shape _ => fun bs =>
    (decodeShape shape bs).map (fun q => (Value.vObj q.1, q.2))
/-- Field loop of `LeptonObject._rawDecode`: decode each declared field in
order, threading the remainder and prepending the key to any `LeptonError`
path. -/
def decodeShape : Shape → Bytes → Res (ValueFields × Bytes)
  | .nil, bs => .ok (.nil, bs)
  | .cons k sch rest, bs =>
    match rawDecode sch bs with
    | .error e => .error (prependPath k e)
    | .ok (fv, remaining) =>
      (decodeShape rest remaining).map (fun q => (ValueFields.cons k fv q.1, q.2))
end

/-- `decode` of the schema contract (`LeptonType.decode`): `_rawDecode`
followed by `parse` on the raw value; the remainder is discarded. -/
def decode (s : Schema) (bs : Bytes) : Res Value :=
  match rawDecode s bs with
  | .error e => .error e
  | .ok (v, _) => parse s v

/-! ## Theorems settling the claims -/

/-- Consuming loop of `decodeVarInt` when every cell has its continuation
bit set: the whole input is consumed and nothing remains. -/
theorem varIntSplit_allCont (bs : Bytes) (h : ∀ b ∈ bs, jsAnd b 128 ≠ 0) :
    varIntSplit bs = (bs, []) := by
  induction bs with
  | nil => rfl
  | cons b rest ih =>
    have hb : jsAnd b 128 ≠ 0 := h b (List.mem_cons_self b rest)
    have hrest : ∀ x ∈ rest, jsAnd x 128 ≠ 0 := fun x hx => h x (List.mem_cons_of_mem b hx)
    simp [varIntSplit, hb, ih hrest]

/-- C4: VarInt decode on truncated input (no byte with the high bit clear,
including the empty input) does not raise an insufficient-bytes failure:
`decodeVarInt` treats end-of-input as an implicit stop and returns the
integer assembled from the low 7 bits of every consumed byte (0 for empty
input) with an empty remainder; at the schema level `BigVarInt.decodeRaw`
likewise succeeds on such input. -/
theorem c4_varint_truncated_implicit_stop (bs : Bytes)
    (h : ∀ b ∈ bs, jsAnd b 128 ≠ 0) :
    decodeVarInt bs = (varIntValue bs, []) ∧
    rawDecode Schema.bigV bs = .ok (.vBigInt (varIntValue bs), []) := by
  have hs := varIntSplit_allCont bs h
  refine ⟨by simp [decodeVarInt, hs], ?_⟩
  show bigRawDecode bs = _
  simp [bigRawDecode, decodeVarInt, hs]

/-- C4 witness: the two-cell input `80 ff` has no terminating byte; decode
stops at end of input with value 127·128 = 16256 and empty remainder. -/
theorem c4_varint_truncated_implicit_stop_witness :
    decodeVarInt [128, 255] = (varIntValue [128, 255], []) ∧
    rawDecode Schema.bigV [128, 255] = .ok (.vBigInt (varIntValue [128, 255]), []) :=
  c4_varint_truncated_implicit_stop [128, 255] (by decide)

/-- C1: the claim (round-trip: `S.decode(S.encode(v))` equals `v` for every
validate-accepted `v`) is right as the spec's core invariant, but the code
violates it for `BigVarInt`: `parse` accepts the bigint `-1`, yet
`encodeVarInt` returns the empty string for a negative value (its
`while (value > 0n)` loop body never runs), and decoding the empty string
yields `0`, not `-1`. -/
theorem c1_bigv_negative_roundtrip_failure :
    parse Schema.bigV (.vBigInt (-1)) = .ok (.vBigInt (-1)) ∧
    encode Schema.bigV (.vBigInt (-1)) = .ok [] ∧
    decode Schema.bigV [] = .ok (.vBigInt 0) ∧
    Value.vBigInt 0 ≠ Value.vBigInt (-1) :=
  ⟨rfl, rfl, rfl, by simp⟩

/-- C2: the claim is right about the intended range, but the code computes
`maxValue = (1 << 32) - 1` under JavaScript 32-bit shift semantics, which
gives `(1 << 32) = 1` and hence `maxValue = 0`: constructing `BitInt(32)`
succeeds, yet `parse`/`encode` reject the in-range value `1` (only `0` is
accepted), contradicting "BitInt(32) accepts every integer in
[0, 2^32 - 1]". -/
theorem c2_bitint32_maxvalue_bug :
    mkBits 32 = .ok 32 ∧
    bitsMax 32 = 0 ∧
    parse (Schema.bits 32) (.vNum 1) =
      .error ⟨"Value out of range for 32-bit integer: must be between 0 and 0", [], true⟩ ∧
    encode (Schema.bits 32) (.vNum 1) =
      .error ⟨"Value out of range for 32-bit integer: must be between 0 and 0", [], true⟩ ∧
    parse (Schema.bits 32) (.vNum 0) = .ok (.vNum 0) ∧
    (1 : Int) ≤ 2 ^ 32 - 1 :=
  ⟨rfl, rfl, rfl, rfl, rfl, by norm_num⟩

/-- C5: VarInt multi-byte: `encodeVarInt(300)` is exactly the two bytes
`ac 02` — the first with its continuation (high) bit set, the second
without — and for every trailing byte sequence `t`, decoding those two
bytes followed by `t` returns exactly 300 with remainder exactly `t`. -/
theorem c5_varint_multibyte_300 :
    encodeVarInt 300 = [172, 2] ∧
    jsAnd 172 128 ≠ 0 ∧
    jsAnd 2 128 = 0 ∧
    ∀ t : Bytes, decodeVarInt (172 :: 2 :: t) = (300, t) := by
  refine ⟨rfl, by decide, rfl, ?_⟩
  intro t
  have hsplit : varIntSplit (172 :: 2 :: t) = ([172, 2], t) := by
    simp [varIntSplit, show jsAnd 172 128 = 128 from rfl, show jsAnd 2 128 = 0 from rfl]
  simp [decodeVarInt, hsplit, varIntValue,
    show jsAnd 172 127 = 44 from rfl, show jsAnd 2 127 = 2 from rfl]

/-- C7: object strictness for shape `{id: UnsignedInt(4)}`: in strict mode
the input `{id: 1, extra: true}` fails with the unknown-field error; in
non-strict mode the same validation succeeds and the result carries only
the declared field `id`. -/
theorem c7_object_strictness :
    parse (.obj (Shape.cons "id" (.unsignedInt 4) .nil) true)
        (.vObj (.cons "id" (.vNum 1) (.cons "extra" (.vBool true) .nil))) =
      .error ⟨"Unrecognized key(s) in object: extra", [], true⟩ ∧
    parse (.obj (Shape.cons "id" (.unsignedInt 4) .nil) false)
        (.vObj (.cons "id" (.vNum 1) (.cons "extra" (.vBool true) .nil))) =
      .ok (.vObj (.cons "id" (.vNum 1) .nil)) :=
  ⟨rfl, rfl⟩

/-- C8: validating `[1, "x", 3]` against `Array(UnsignedInt(1))` fails, and
the error path is exactly `["1"]` — the stringified index of the first
offending element, prepended as the failure propagates out. -/
theorem c8_array_element_error_path :
    parse (.arr (.unsignedInt 1))
        (.vArr (.cons (.vNum 1) (.cons (.vStr "x") (.cons (.vNum 3) .nil)))) =
      .error ⟨"Expected integer, got string", ["1"], true⟩ :=
  rfl

/-- C9: enum derivation: `["a","b","c"].exclude(["b"])` yields options
exactly `["a","c"]` in order; encoding `"c"` on the derived enum gives byte
`01` while the original gives `02` (the index shifts); and `exclude` fails
whenever the filtered value list would be empty. -/
theorem c9_enum_exclude_derivation :
    enumExclude ["a", "b", "c"] ["b"] = .ok ["a", "c"] ∧
    encode (.enum ["a", "c"]) (.vStr "c") = .ok [1] ∧
    encode (.enum ["a", "b", "c"]) (.vStr "c") = .ok [2] ∧
    ([1] : Bytes) ≠ [2] ∧
    ∀ values toExcl : List String,
      values.filter (fun x => !(toExcl.contains x)) = [] →
      enumExclude values toExcl =
        .error ⟨"Cannot exclude all values from an enum", [], true⟩ := by
  refine ⟨rfl, rfl, rfl, by simp, ?_⟩
  intro values toExcl h
  simp only [enumExclude]
  rw [h]
  rfl

/-- C9 witness: excluding the only value of the enum `["a"]` fails. -/
theorem c9_enum_exclude_derivation_witness :
    enumExclude ["a"] ["a"] =
      .error ⟨"Cannot exclude all values from an enum", [], true⟩ :=
  c9_enum_exclude_derivation.2.2.2.2 ["a"] ["a"] rfl

/-- C10: non-canonical discriminator bytes are accepted on decode: for any
inner schema, `Optional.decodeRaw` treats the flag byte `00` as absent and
every nonzero flag (for instance `02`) as present, decoding the inner value
from the remainder; `Nullable.decodeRaw` treats exactly `01` as null and
every other flag (for instance `02`) as value-follows.  Neither wrapper
rejects a flag byte outside {0, 1}. -/
theorem c10_noncanonical_flag_bytes :
    (∀ (s : Schema) (b : Int) (rest : Bytes),
      rawDecode (.opt s) (b :: rest) =
        if b = 0 then .ok (.vUndef, rest) else rawDecode s rest) ∧
    (∀ (s : Schema) (b : Int) (rest : Bytes),
      rawDecode (.nullable s) (b :: rest) =
        if b = 1 then .ok (.vNull, rest) else rawDecode s rest) ∧
    rawDecode (.opt .boolean) [2, 1] = .ok (.vBool true, []) ∧
    rawDecode (.nullable .boolean) [2, 1] = .ok (.vBool true, []) :=
  ⟨fun _ _ _ => rfl, fun _ _ _ => rfl, rfl, rfl⟩

/-! ### Encode re-validation lemmas (for C3) -/

/-- `LeptonSignedInt.encode` repeats the checks of `parse` verbatim, so a
failing `parse` means `encode` fails with the identical error. -/
theorem signedParse_err_encode (w : Nat) (v : Value) (e : Err)
    (h : signedParse w v = .error e) : signedEncode w v = .error e := by
  cases v <;> simp_all [signedParse, signedEncode]
  split at h <;> simp_all

/-- `LeptonUnsignedInt.encode` repeats the checks of `parse` verbatim. -/
theorem uintParse_err_encode (w : Nat) (v : Value) (e : Err)
    (h : uintParse w v = .error e) : uintEncode w v = .error e := by
  cases v <;> simp_all [uintParse, uintEncode]
  split at h <;> simp_all

/-- `LeptonBits.encode` repeats the checks of `parse` verbatim. -/
theorem bitsParse_err_encode (w : Nat) (v : Value) (e : Err)
    (h : bitsParse w v = .error e) : bitsEncode w v = .error e := by
  cases v <;> simp_all [bitsParse, bitsEncode]
  split at h <;> simp_all

/-- `LeptonBoolean.encode` repeats the type check of `parse`. -/
theorem boolParse_err_encode (v : Value) (e : Err)
    (h : boolParse v = .error e) : boolEncode v = .error e := by
  cases v <;> simp_all [boolParse, boolEncode]

/-- `LeptonBigInt.encode` repeats the type check of `parse`. -/
theorem bigParse_err_encode (v : Value) (e : Err)
    (h : bigParse v = .error e) : bigEncode v = .error e := by
  cases v <;> simp_all [bigParse, bigEncode]

/-- `LeptonEnum.encode` calls `parse` itself, so it propagates exactly the
`parse` error. -/
theorem enumParse_err_encode (vs : List String) (v : Value) (e : Err)
    (h : enumParse vs v = .error e) : enumEncode vs v = .error e := by
  simp [enumEncode, h]

/-- C3: the claim that every primitive encode re-validates its argument is
refuted by `LeptonString.encode`, which performs no type check: encoding
the boolean `true` with the String codec produces the bytes
`04 74 72 75 65` (VarInt length 4 followed by UTF-8 "true", the ToString
coercion applied by `TextEncoder`) even though `validate` rejects the same
argument as a type mismatch. -/
theorem c3_string_encode_no_recheck :
    parse Schema.str (.vBool true) = .error ⟨"Expected string, got boolean", [], true⟩ ∧
    encode Schema.str (.vBool true) = .ok [4, 116, 114, 117, 101] :=
  ⟨rfl, rfl⟩

/-- C3 (amended): the integer, bit-width, boolean, big-integer and enum
encoders do re-validate their argument before producing bytes and fail
with exactly the error `validate` produces, but the String encoder never
fails — it coerces its argument to a string and always produces bytes.
(The Float32/Float64 encoders likewise lack any re-check; they are outside
this embedding.) -/
theorem c3_amended_encode_revalidation :
    (∀ (w : Nat) (v : Value) (e : Err),
      parse (Schema.signedInt w) v = .error e → encode (Schema.signedInt w) v = .error e) ∧
    (∀ (w : Nat) (v : Value) (e : Err),
      parse (Schema.unsignedInt w) v = .error e → encode (Schema.unsignedInt w) v = .error e) ∧
    (∀ (w : Nat) (v : Value) (e : Err),
      parse (Schema.bits w) v = .error e → encode (Schema.bits w) v = .error e) ∧
    (∀ (v : Value) (e : Err),
      parse Schema.boolean v = .error e → encode Schema.boolean v = .error e) ∧
    (∀ (v : Value) (e : Err),
      parse Schema.bigV v = .error e → encode Schema.bigV v = .error e) ∧
    (∀ (vs : List String) (v : Value) (e : Err),
      parse (Schema.enum vs) v = .error e → encode (Schema.enum vs) v = .error e) ∧
    (∀ v : Value, ∃ bs, encode Schema.str v = .ok bs) :=
  ⟨fun w v e h => signedParse_err_encode w v e h,
   fun w v e h => uintParse_err_encode w v e h,
   fun w v e h => bitsParse_err_encode w v e h,
   fun v e h => boolParse_err_encode v e h,
   fun v e h => bigParse_err_encode v e h,
   fun vs v e h => enumParse_err_encode vs v e h,
   fun _ => ⟨_, rfl⟩⟩

/-- C3 witness: each re-validating encoder instantiated at a concrete
rejected input, failing with the validate error. -/
theorem c3_amended_encode_revalidation_witness :
    encode (Schema.signedInt 1) (.vStr "a") =
      .error ⟨"Expected integer, got string", [], true⟩ ∧
    encode (Schema.unsignedInt 1) (.vNum 256) =
      .error ⟨"Value out of range for unsigned uint8: must be between 0 and 255", [], true⟩ ∧
    encode (Schema.bits 4) (.vNum 16) =
      .error ⟨"Value out of range for 4-bit integer: must be between 0 and 15", [], true⟩ ∧
    encode Schema.boolean (.vNum 0) =
      .error ⟨"Expected boolean, got number", [], true⟩ ∧
    encode Schema.bigV (.vNum 1) =
      .error ⟨"Expected bigint, got number", [], true⟩ ∧
    encode (Schema.enum ["a"]) (.vStr "b") =
      .error ⟨"Invalid enum value. Expected one of: a, got: b", [], true⟩ :=
  ⟨c3_amended_encode_revalidation.1 1 (.vStr "a") _ rfl,
   c3_amended_encode_revalidation.2.1 1 (.vNum 256) _ rfl,
   c3_amended_encode_revalidation.2.2.1 4 (.vNum 16) _ rfl,
   c3_amended_encode_revalidation.2.2.2.1 (.vNum 0) _ rfl,
   c3_amended_encode_revalidation.2.2.2.2.1 (.vNum 1) _ rfl,
   c3_amended_encode_revalidation.2.2.2.2.2.1 ["a"] (.vStr "b") _ rfl⟩

/-! ### Wrapper equations and encode totality (for C6) -/

/-- `LeptonOptional.parse` on a present (non-`undefined`) value delegates
to the inner schema. -/
theorem parse_opt_ne (s : Schema) (v : Value) (hv : v ≠ .vUndef) :
    parse (.opt s) v = parse s v := by
  cases v
  all_goals first | exact absurd rfl hv | rfl

/-- `LeptonOptional.encode` on a present value is the presence flag `01`
followed by the inner encoding. -/
theorem encode_opt_ne (s : Schema) (v : Value) (hv : v ≠ .vUndef) :
    encode (.opt s) v = (encode s v).map (fun bs => 1 :: bs) := by
  cases v
  all_goals first | exact absurd rfl hv | rfl

/-- `LeptonNullable.parse` on a non-null value delegates to the inner
schema. -/
theorem parse_nullable_ne (s : Schema) (v : Value) (hv : v ≠ .vNull) :
    parse (.nullable s) v = parse s v := by
  cases v
  all_goals first | exact absurd rfl hv | rfl

/-- `LeptonNullable.encode` on a non-null value is the flag `00` followed
by the inner encoding. -/
theorem encode_nullable_ne (s : Schema) (v : Value) (hv : v ≠ .vNull) :
    encode (.nullable s) v = (encode s v).map (fun bs => 0 :: bs) := by
  cases v
  all_goals first | exact absurd rfl hv | rfl

/-- A value accepted by `signedParse` is encodable. -/
theorem signedParse_ok_encode (w : Nat) (v v' : Value)
    (h : signedParse w v = .ok v') : ∃ bs, signedEncode w v = .ok bs := by
  cases v <;> simp only [signedParse] at h
  case vNum n =>
    split at h
    · exact absurd h (by simp)
    · next hc => exact ⟨_, by simp only [signedEncode]; rw [if_neg hc]⟩
  all_goals exact absurd h (by simp)

/-- A value accepted by `uintParse` is encodable. -/
theorem uintParse_ok_encode (w : Nat) (v v' : Value)
    (h : uintParse w v = .ok v') : ∃ bs, uintEncode w v = .ok bs := by
  cases v <;> simp only [uintParse] at h
  case vNum n =>
    split at h
    · exact absurd h (by simp)
    · next hc => exact ⟨_, by simp only [uintEncode]; rw [if_neg hc]⟩
  all_goals exact absurd h (by simp)

/-- A value accepted by `bitsParse` is encodable. -/
theorem bitsParse_ok_encode (w : Nat) (v v' : Value)
    (h : bitsParse w v = .ok v') : ∃ bs, bitsEncode w v = .ok bs := by
  cases v <;> simp only [bitsParse] at h
  case vNum n =>
    split at h
    · exact absurd h (by simp)
    · next hc => exact ⟨_, by simp only [bitsEncode]; rw [if_neg hc]⟩
  all_goals exact absurd h (by simp)

/-- A value accepted by `boolParse` is encodable. -/
theorem boolParse_ok_encode (v v' : Value)
    (h : boolParse v = .ok v') : ∃ bs, boolEncode v = .ok bs := by
  cases v <;> simp_all [boolParse, boolEncode]

/-- A value accepted by `bigParse` is encodable (negative bigints
included — the encoding is then the empty byte string). -/
theorem bigParse_ok_encode (v v' : Value)
    (h : bigParse v = .ok v') : ∃ bs, bigEncode v = .ok bs := by
  cases v <;> simp_all [bigParse, bigEncode]

/-- A value accepted by `enumParse` is encodable (via the `-1` cell in the
non-string coercion corner). -/
theorem enumParse_ok_encode (vs : List String) (v v' : Value)
    (h : enumParse vs v = .ok v') : ∃ bs, enumEncode vs v = .ok bs := by
  simp only [enumEncode, h]
  cases v
  case vStr s => cases hf : vs.findIdx? (fun x => x == s) <;> simp [hf]
  all_goals simp

/-- Element-wise transfer: if every element accepted by the validator `f`
is encodable by `g`, a list accepted by `parseLoop f` is encodable by
`encodeLoop g`. -/
theorem parseLoop_ok_encodeLoop_ok
    (f : Value → Res Value) (g : Value → Res Bytes)
    (hfg : ∀ v v', f v = .ok v' → ∃ bs, g v = .ok bs) :
    ∀ (xs : ValueList) (i : Nat) (ys : ValueList),
      parseLoop f xs i = .ok ys → ∃ bs, encodeLoop g xs = .ok bs
  | .nil, _, _, _ => ⟨[], rfl⟩
  | .cons x rest, i, ys, h => by
    simp only [parseLoop] at h
    split at h
    · simp at h
    · next y hf =>
      cases hp : parseLoop f rest (i + 1) with
      | error e => rw [hp] at h; simp [Except.map] at h
      | ok ys2 =>
        obtain ⟨bs1, hbs1⟩ := hfg x y hf
        obtain ⟨bs2, hbs2⟩ := parseLoop_ok_encodeLoop_ok f g hfg rest (i + 1) ys2 hp
        exact ⟨bs1 ++ bs2, by simp [encodeLoop, hbs1, hbs2, Except.map]⟩

mutual
/-- Any value accepted by `validate` is encodable: `encode` cannot fail on
a validated value for any schema node of the universe. -/
theorem parse_ok_encode_ok :
    ∀ (s : Schema) (v v' : Value), parse s v = .ok v' → ∃ bs, encode s v = .ok bs
  | .signedInt w, v, v', h => signedParse_ok_encode w v v' h
  | .unsignedInt w, v, v', h => uintParse_ok_encode w v v' h
  | .bits w, v, v', h => bitsParse_ok_encode w v v' h
  | .boolean, v, v', h => boolParse_ok_encode v v' h
  | .str, v, v', h => ⟨_, rfl⟩
  | .bigV, v, v', h => bigParse_ok_encode v v' h
  | .enum vs, v, v', h => enumParse_ok_encode vs v v' h
  | .opt s, v, v', h => by
    by_cases hv : v = .vUndef
    · subst hv; exact ⟨[0], rfl⟩
    · rw [parse_opt_ne s v hv] at h
      obtain ⟨bs, hbs⟩ := parse_ok_encode_ok s v v' h
      exact ⟨1 :: bs, by rw [encode_opt_ne s v hv, hbs]; rfl⟩
  | .nullable s, v, v', h => by
    by_cases hv : v = .vNull
    · subst hv; exact ⟨[1], rfl⟩
    · rw [parse_nullable_ne s v hv] at h
      obtain ⟨bs, hbs⟩ := parse_ok_encode_ok s v v' h
      exact ⟨0 :: bs, by rw [encode_nullable_ne s v hv, hbs]; rfl⟩
  | .arr s, v, v', h => by
    cases v <;> simp only [parse] at h
    case vArr xs =>
      cases hp : parseLoop (parse s) xs 0 with
      | error e => rw [hp] at h; exact absurd h (by simp [Except.map])
      | ok ys =>
        obtain ⟨bs, hbs⟩ := parseLoop_ok_encodeLoop_ok (parse s) (encode s)
          (fun a b hab => parse_ok_encode_ok s a b hab) xs 0 ys hp
        refine ⟨encodeVarInt (vlLength xs : Int) ++ bs, ?_⟩
        show (encodeLoop (encode s) xs).map (fun l => encodeVarInt (vlLength xs : Int) ++ l)
          = .ok (encodeVarInt (vlLength xs : Int) ++ bs)
        rw [hbs]
        rfl
    all_goals exact absurd h (by simp)
  | .obj shape strict, v, v', h => by
    cases v <;> simp only [parse, jsObjFields] at h
    case vObj fs =>
      split at h
      · exact absurd h (by simp)
      · cases hp : parseShape shape fs with
        | error e => rw [hp] at h; exact absurd h (by simp [Except.map])
        | ok out =>
          exact parseShape_ok_encodeShape_ok shape fs out (.vObj fs) hp (fun k => rfl)
    case vArr xs =>
      split at h
      · exact absurd h (by simp)
      · cases hp : parseShape shape (arrToFields xs 0) with
        | error e => rw [hp] at h; exact absurd h (by simp [Except.map])
        | ok out =>
          exact parseShape_ok_encodeShape_ok shape (arrToFields xs 0) out (.vArr xs) hp
            (fun k => rfl)
    all_goals exact absurd h (by simp)
/-- Shape-level version of `parse_ok_encode_ok`: a field map accepted by
the object validator is encodable against any receiver whose member reads
agree with the map (absent optional fields encode their own absence). -/
theorem parseShape_ok_encodeShape_ok :
    ∀ (shape : Shape) (fs out : ValueFields) (v : Value),
      parseShape shape fs = .ok out →
      (∀ k, jsGet v k = .ok ((vfLookup fs k).getD .vUndef)) →
      ∃ bs, encodeShape shape v = .ok bs
  | .nil, fs, out, v, h, hjs => ⟨[], rfl⟩
  | .cons k sch rest, fs, out, v, h, hjs => by
    simp only [parseShape] at h
    split at h
    · next hl =>
      cases sch <;> simp only [isOptSchema] at h
      case opt s2 =>
        simp only [if_true] at h
        obtain ⟨bs2, hbs2⟩ := parseShape_ok_encodeShape_ok rest fs out v h hjs
        refine ⟨[0] ++ bs2, ?_⟩
        simp [encodeShape, hjs k, hl, hbs2, Except.map]
        rfl
      all_goals rw [if_neg (by simp)] at h
      all_goals exact absurd h (by simp)
    · next fv hl =>
      split at h
      · exact absurd h (by simp)
      · next pv hp =>
        cases hr : parseShape rest fs with
        | error e => rw [hr] at h; exact absurd h (by simp [Except.map])
        | ok out2 =>
          obtain ⟨bs1, hbs1⟩ := parse_ok_encode_ok sch fv pv hp
          obtain ⟨bs2, hbs2⟩ := parseShape_ok_encodeShape_ok rest fs out2 v hr hjs
          exact ⟨bs1 ++ bs2, by simp [encodeShape, hjs k, hl, hbs1, hbs2, Except.map]⟩
end

/-- C6: wrapper flag-byte polarity: for every inner schema, Optional
encodes the absent value as the single byte `00` and an inner-valid
present value as `01` followed by the inner encoding, whereas Nullable
encodes `null` as the single byte `01` and an inner-valid non-null value
as `00` followed by the inner encoding — opposite polarities for the
one-byte discriminator. -/
theorem c6_wrapper_flag_polarity :
    (∀ s : Schema, encode (.opt s) .vUndef = .ok [0]) ∧
    (∀ s : Schema, encode (.nullable s) .vNull = .ok [1]) ∧
    (∀ (s : Schema) (v v' : Value), parse s v = .ok v' → v ≠ .vUndef →
      ∃ bs, encode s v = .ok bs ∧ encode (.opt s) v = .ok (1 :: bs)) ∧
    (∀ (s : Schema) (v v' : Value), parse s v = .ok v' → v ≠ .vNull →
      ∃ bs, encode s v = .ok bs ∧ encode (.nullable s) v = .ok (0 :: bs)) := by
  refine ⟨fun s => rfl, fun s => rfl, ?_, ?_⟩
  · intro s v v' h hv
    obtain ⟨bs, hbs⟩ := parse_ok_encode_ok s v v' h
    exact ⟨bs, hbs, by rw [encode_opt_ne s v hv, hbs]; rfl⟩
  · intro s v v' h hv
    obtain ⟨bs, hbs⟩ := parse_ok_encode_ok s v v' h
    exact ⟨bs, hbs, by rw [encode_nullable_ne s v hv, hbs]; rfl⟩

/-- C6 witness: with the boolean inner schema, `true` encodes to `01 01`
under Optional and `false` to `00 00` under Nullable. -/
theorem c6_wrapper_flag_polarity_witness :
    (∃ bs, encode Schema.boolean (.vBool true) = .ok bs ∧
      encode (.opt .boolean) (.vBool true) = .ok (1 :: bs)) ∧
    (∃ bs, encode Schema.boolean (.vBool false) = .ok bs ∧
      encode (.nullable .boolean) (.vBool false) = .ok (0 :: bs)) :=
  ⟨c6_wrapper_flag_polarity.2.2.1 .boolean (.vBool true) (.vBool true) rfl (by simp),
   c6_wrapper_flag_polarity.2.2.2 .boolean (.vBool false) (.vBool false) rfl (by simp)⟩

/-- C5 witness: instantiating the trailing-bytes quantifier at `[9]`. -/
theorem c5_varint_multibyte_300_witness :
    decodeVarInt (172 :: 2 :: [9]) = (300, [9]) :=
  c5_varint_multibyte_300.2.2.2 [9]

/-- C10 witness: the wrapper flag equations instantiated at the String
inner schema with flag bytes 0 and 1. -/
theorem c10_noncanonical_flag_bytes_witness :
    rawDecode (.opt .str) (0 :: [5]) = .ok (.vUndef, [5]) ∧
    rawDecode (.nullable .str) (1 :: [5]) = .ok (.vNull, [5]) :=
  ⟨by rw [c10_noncanonical_flag_bytes.1 .str 0 [5]]; rfl,
   by rw [c10_noncanonical_flag_bytes.2.1 .str 1 [5]]; rfl⟩

end Lepton
